import Mathlib

/-
Verification of the chapter-2 library (`src/ch02/src/lib.rs`): login-session
registry, shopping carts, view history with a popularity index, a gated page
cache, and a delay-based row-cache refresh scheduler, all over a Redis-style
ordered key-value store.

The store is modelled shallowly: one keyspace split by value kind (plain
strings with optional expiry, hashes, sorted sets).  Sorted sets are kept as
lists in rank order (ascending score, ties by member byte order), which is the
order Redis reports ranks and ranges in.  Timestamps and scores are `Int`
(the code uses `isize` milliseconds from `SystemTime`).  Functions that the
Rust code writes against `redis::Connection` become pure state transformers;
call sites whose redis-rs reply conversion can fail on a nil reply (a typed
`hget`/`zscore` returning `String`/`isize`) become `Except`.
-/

namespace Ch02

/-- Association-list lookup used for every keyed collection of the model. -/
def alFind {α : Type} : List (String × α) → String → Option α
  | [], _ => none
  | (k', v) :: rest, k => if k' = k then some v else alFind rest k

/-- Association-list upsert: replaces the first binding of the key in place,
or appends a new binding at the end. -/
def alSet {α : Type} : List (String × α) → String → α → List (String × α)
  | [], k, v => [(k, v)]
  | (k', v') :: rest, k, v =>
    if k' = k then (k, v) :: rest else (k', v') :: alSet rest k v

/-- The backing store: plain string keys (value, optional absolute expiry),
hash keys (field to value), and sorted-set keys (member, score) kept in rank
order. -/
structure Store where
  strings : List (String × (String × Option Int))
  hashes : List (String × List (String × String))
  zsets : List (String × List (String × Int))
deriving DecidableEq

def emptyStore : Store := ⟨[], [], []⟩

/-- The sorted-set list stored under a key; a missing key is the empty set. -/
def zsetOf (st : Store) (key : String) : List (String × Int) :=
  (alFind st.zsets key).getD []

/-- The hash stored under a key; a missing key is the empty hash. -/
def hashOf (st : Store) (key : String) : List (String × String) :=
  (alFind st.hashes key).getD []

/-- Byte-order comparison on members, the tie-break Redis uses inside one
score. -/
def charListLt : List Char → List Char → Bool
  | [], [] => false
  | [], _ :: _ => true
  | _ :: _, [] => false
  | a :: as, b :: bs =>
    if a.toNat < b.toNat then true
    else if b.toNat < a.toNat then false
    else charListLt as bs

def strLt (a b : String) : Bool := charListLt a.data b.data

/-- Whether the new element (member `m`, score `s`) ranks before an existing
element: lower score first, ties by member order. -/
def zBefore (m : String) (s : Int) (m' : String) (s' : Int) : Bool :=
  if s < s' then true
  else if s' < s then false
  else strLt m m'

/-- Insert a member at its rank position (the member is assumed absent). -/
def zinsert : List (String × Int) → String → Int → List (String × Int)
  | [], m, s => [(m, s)]
  | (m', s') :: rest, m, s =>
    if zBefore m s m' s' then (m, s) :: (m', s') :: rest
    else (m', s') :: zinsert rest m s

/-- Drop every occurrence of a member. -/
def zwithout (l : List (String × Int)) (m : String) : List (String × Int) :=
  l.filter (fun p => p.1 != m)

/-- Redis ZADD: upsert the member with the given score, re-ranking it. -/
def zadd (st : Store) (key m : String) (score : Int) : Store :=
  { st with zsets := alSet st.zsets key (zinsert (zwithout (zsetOf st key) m) m score) }

/-- Redis ZSCORE as an `Option`. -/
def zscore (st : Store) (key m : String) : Option Int :=
  ((zsetOf st key).find? (fun p => p.1 == m)).map (fun p => p.2)

/-- Redis ZRANK: the member's position in rank order. -/
def zrank (st : Store) (key m : String) : Option Nat :=
  (zsetOf st key).findIdx? (fun p => p.1 == m)

/-- Redis ZCARD. -/
def zcard (st : Store) (key : String) : Nat := (zsetOf st key).length

/-- Redis rank-range index resolution: negative indexes count from the end,
the start is clamped at 0, a start past the end or past the stop selects
nothing, and the stop is clamped at the last element. -/
def resolveRange (n : Nat) (start stop : Int) : Option (Nat × Nat) :=
  let s := if start < 0 then start + n else start
  let e := if stop < 0 then stop + n else stop
  let s := max s 0
  if s > e ∨ (n : Int) ≤ s then none
  else some (s.toNat, (min e ((n : Int) - 1)).toNat)

/-- The slice of a rank-ordered list selected by a Redis index pair. -/
def zslice (l : List (String × Int)) (start stop : Int) : List (String × Int) :=
  match resolveRange l.length start stop with
  | none => []
  | some (s, e) => (l.drop s).take (e + 1 - s)

/-- Redis ZRANGE (members only). -/
def zrange (st : Store) (key : String) (start stop : Int) : List String :=
  (zslice (zsetOf st key) start stop).map (fun p => p.1)

/-- Redis ZRANGE WITHSCORES. -/
def zrangeWithScores (st : Store) (key : String) (start stop : Int) : List (String × Int) :=
  zslice (zsetOf st key) start stop

/-- Redis ZREM of a batch of members. -/
def zrem (st : Store) (key : String) (ms : List String) : Store :=
  { st with zsets := alSet st.zsets key ((zsetOf st key).filter (fun p => !(ms.contains p.1))) }

/-- The list left by ZREMRANGEBYRANK on one rank-ordered list. -/
def zremRangeList (l : List (String × Int)) (start stop : Int) : List (String × Int) :=
  match resolveRange l.length start stop with
  | none => l
  | some (s, e) => l.take s ++ l.drop (e + 1)

/-- Redis ZREMRANGEBYRANK. -/
def zremrangebyrank (st : Store) (key : String) (start stop : Int) : Store :=
  { st with zsets := alSet st.zsets key (zremRangeList (zsetOf st key) start stop) }

/-- Redis ZINCRBY: a missing member counts as score 0. -/
def zincr (st : Store) (key m : String) (delta : Int) : Store :=
  zadd st key m ((zscore st key m).getD 0 + delta)

/-- Redis HSET. -/
def hset (st : Store) (key f v : String) : Store :=
  { st with hashes := alSet st.hashes key (alSet (hashOf st key) f v) }

/-- Redis HGET as an `Option`. -/
def hget (st : Store) (key f : String) : Option String :=
  alFind (hashOf st key) f

/-- Redis HDEL of a batch of fields. -/
def hdel (st : Store) (key : String) (fs : List String) : Store :=
  { st with hashes := alSet st.hashes key ((hashOf st key).filter (fun p => !(fs.contains p.1))) }

/-- Redis GET at an instant: a key whose expiry has passed reads as absent. -/
def sget (st : Store) (now : Int) (key : String) : Option String :=
  match alFind st.strings key with
  | none => none
  | some (v, none) => some v
  | some (v, some e) => if now < e then some v else none

/-- Redis SET (plain, clearing any expiry). -/
def sset (st : Store) (key v : String) : Store :=
  { st with strings := alSet st.strings key (v, none) }

/-- Redis SETEX: write the value with an absolute expiry `now + ttl`. -/
def setEx (st : Store) (key v : String) (ttl now : Int) : Store :=
  { st with strings := alSet st.strings key (v, some (now + ttl)) }

/-- Redis DEL of a batch of keys, removing each from the whole keyspace. -/
def del (st : Store) (ks : List String) : Store :=
  { strings := st.strings.filter (fun p => !(ks.contains p.1)),
    hashes := st.hashes.filter (fun p => !(ks.contains p.1)),
    zsets := st.zsets.filter (fun p => !(ks.contains p.1)) }

/-- Split a character list at the first occurrence of a separator; `none`
when the separator does not occur. -/
def splitFirst (c : Char) : List Char → Option (List Char × List Char)
  | [] => none
  | x :: xs =>
    if x = c then some ([], xs)
    else (splitFirst c xs).map (fun p => (x :: p.1, p.2))

/-- Split a character list on every occurrence of a separator. -/
def splitAll (c : Char) : List Char → List (List Char)
  | [] => [[]]
  | x :: xs =>
    if x = c then [] :: splitAll c xs
    else
      match splitAll c xs with
      | [] => [[x]]
      | h :: t => (x :: h) :: t

/-- One query-string chunk as a (name, value) pair: the chunk is split at its
first `=`; chunks with no `=` and chunks with an empty value are dropped, as
the query parser the code calls does. -/
def chunkPair (chunk : List Char) : Option (String × String) :=
  match splitFirst '=' chunk with
  | none => none
  | some (n, v) => if v.isEmpty then none else some (⟨n⟩, ⟨v⟩)

/-- The (name, value) pairs of a query string, in order of appearance. -/
def qsPairs (q : List Char) : List (String × String) :=
  (splitAll '&' q).filterMap chunkPair

/-- Modelled from the spec: URL/query-string parsing is an out-of-scope
collaborator (the `urlparse` crate), specified only at its interface.  As in
that parser, the fragment is cut at the first `#`, the query is everything
after the first `?` before the fragment, and there is no query at all when no
`?` occurs. -/
def getParsedQuery (request : String) : Option (List (String × String)) :=
  let beforeFrag :=
    match splitFirst '#' request.data with
    | none => request.data
    | some p => p.1
  match splitFirst '?' beforeFrag with
  | none => none
  | some p => some (qsPairs p.2)

/-- Embeds `extract_item_id` (lib.rs lines 192-200): the first value of the
query parameter named `item`, when the request has a parsed query. -/
def extract_item_id (request : String) : Option String :=
  match getParsedQuery request with
  | none => none
  | some query =>
    match query.find? (fun p => p.1 == "item") with
    | none => none
    | some p => some p.2

/-- Embeds `is_dynamic` (lib.rs lines 202-208): whether the parsed query
contains a parameter named `_`. -/
def is_dynamic (request : String) : Bool :=
  match getParsedQuery request with
  | none => false
  | some query => query.any (fun p => p.1 == "_")

/-- Modelled from the spec: `hash_request` (lib.rs lines 210-214) derives the
cache key from a stable hash of the full request string; the hasher itself
(std `DefaultHasher`) is external standard-library code, so it is modelled by
a concrete deterministic string hash — only determinism is relied on. -/
def hash_request (request : String) : String :=
  toString (request.data.foldl (fun h c => (h * 31 + c.toNat) % 18446744073709551616) 7)

/-- Embeds `check_token` (lib.rs lines 17-19): an HGET on the `login:` hash
typed as `String` in redis-rs, so a nil reply (absent token) fails the reply
conversion and surfaces as an error through the `?` operator. -/
def check_token (st : Store) (token : String) : Except String String :=
  match hget st "login:" token with
  | some user => Except.ok user
  | none => Except.error "response was nil"

/-- Embeds `update_token` (lib.rs lines 21-40).  The timestamp is the single
`SystemTime` read at the top of the function, passed in explicitly. -/
def update_token (st : Store) (token user : String) (item : Option String) (timestamp : Int) : Store :=
  let st := hset st "login:" token user
  let st := zadd st "recent:" token timestamp
  match item with
  | none => st
  | some it =>
    let viewed := "viewed:" ++ token
    let st := zadd st viewed it timestamp
    let st := zremrangebyrank st viewed 0 (-26)
    zincr st "viewed:" it (-1)

/-- The write prefix of `update_token` when an item is viewed (lib.rs lines
27-35): the login upsert, the recency ZADD and the view-history ZADD, before
the history trim and the popularity ZINCRBY run. -/
def update_token_writes (st : Store) (token user it : String) (timestamp : Int) : Store :=
  zadd (zadd (hset st "login:" token user) "recent:" token timestamp) ("viewed:" ++ token) it timestamp

/-- Embeds `add_to_cart` (lib.rs lines 72-87). -/
def add_to_cart (st : Store) (session item : String) (count : Int) : Store :=
  let key := "cart:" ++ session
  if count ≤ 0 then hdel st key [item]
  else hset st key item (toString count)

/-- The token batch one reaper iteration selects (lib.rs lines 48-55 and
94-102, identical in both reapers): the first `min(size - limit, 100)` ranks
of the `recent:` index. -/
def sessionBatch (st : Store) (limit : Int) : List String :=
  let size : Int := zcard st "recent:"
  let end_index := min (size - limit) 100
  zrange st "recent:" 0 (end_index - 1)

/-- Embeds one iteration of the `clean_sessions` loop body (lib.rs lines
47-68): when the registry is over the limit, delete the batch's view-history
keys, drop the tokens from the `login:` hash and from the `recent:` index. -/
def clean_sessions_step (st : Store) (limit : Int) : Store :=
  if (zcard st "recent:" : Int) ≤ limit then st
  else
    let tokens := sessionBatch st limit
    let views := tokens.map (fun x => "viewed:" ++ x)
    zrem (hdel (del st views) "login:" tokens) "recent:" tokens

/-- Embeds one iteration of the `clean_full_sessions` loop body (lib.rs lines
94-119): as `clean_sessions`, but also deleting each session's cart key. -/
def clean_full_sessions_step (st : Store) (limit : Int) : Store :=
  if (zcard st "recent:" : Int) ≤ limit then st
  else
    let sessions := sessionBatch st limit
    let session_keys := (sessions.map (fun x => ["viewed:" ++ x, "cart:" ++ x])).flatten
    zrem (hdel (del st session_keys) "login:" sessions) "recent:" sessions

/-- Iterated reaper passes of `clean_sessions` (the `while` loop). -/
def clean_sessions_iter (limit : Int) : Nat → Store → Store
  | 0, st => st
  | n + 1, st => clean_sessions_iter limit n (clean_sessions_step st limit)

/-- Iterated reaper passes of `clean_full_sessions`. -/
def clean_full_sessions_iter (limit : Int) : Nat → Store → Store
  | 0, st => st
  | n + 1, st => clean_full_sessions_iter limit n (clean_full_sessions_step st limit)

/-- Embeds `can_cache` (lib.rs lines 141-148): an item id must be present,
the request must not be dynamic, and the item's rank in the `viewed:`
popularity index must exist and be below 10000. -/
def can_cache (st : Store) (request : String) : Bool :=
  match extract_item_id request with
  | none => false
  | some item_id =>
    if is_dynamic request then false
    else
      match zrank st "viewed:" item_id with
      | none => false
      | some rank => rank < 10000

/-- Embeds `cache_request` (lib.rs lines 123-139): uncacheable requests are
rendered directly with no store effect; otherwise the content under the
hashed cache key is read (any failed read, including a miss, falls back to
the renderer) and rewritten with a 300-second expiry. -/
def cache_request (st : Store) (now : Int) (request : String) (callback : String → String) : String × Store :=
  if !(can_cache st request) then (callback request, st)
  else
    let page_key := "cache:" ++ hash_request request
    let content := (sget st now page_key).getD (callback request)
    (content, setEx st page_key content 300 now)

/-- Embeds `schedule_row_cache` (lib.rs lines 150-159): record the delay and
insert a schedule entry due now (`now` is `SystemTime` milliseconds). -/
def schedule_row_cache (st : Store) (row_id : String) (delay : Int) (now : Int) : Store :=
  zadd (zadd st "delay:" row_id delay) "schedule:" row_id now

/-- Embeds one iteration of the `cache_rows` loop body (lib.rs lines
162-187).  `fetch` is the external record provider already serialized
(`Inventory::get` plus `serde_json`).  A missing or future earliest schedule
entry leaves the store unchanged (the thread only sleeps); a nil ZSCORE reply
for the popped row's delay fails the `isize` conversion and becomes an error
through `?`; a non-positive delay removes the schedule entry, the delay entry
and the row-cache key; a positive delay re-schedules at `now + delay` and
overwrites the row-cache key with the fetched record. -/
def cache_rows_step (fetch : String → String) (st : Store) (now : Int) : Except String Store :=
  match zrangeWithScores st "schedule:" 0 0 with
  | [] => Except.ok st
  | (row_id, due) :: _ =>
    if due > now then Except.ok st
    else
      match zscore st "delay:" row_id with
      | none => Except.error "response was nil"
      | some delay =>
        let inv := "inv:" ++ row_id
        if delay ≤ 0 then
          Except.ok (del (zrem (zrem st "delay:" [row_id]) "schedule:" [row_id]) [inv])
        else
          Except.ok (sset (zadd st "schedule:" row_id (now + delay)) inv (fetch row_id))

/-- The `cache_rows` polling loop over a given sequence of wall-clock reads:
an error in any iteration stops the whole loop (the `?` operator returns it
from `cache_rows`, ending background refresh). -/
def cache_rows_loop (fetch : String → String) : List Int → Store → Except String Store
  | [], st => Except.ok st
  | now :: rest, st =>
    match cache_rows_step fetch st now with
    | Except.error e => Except.error e
    | Except.ok st' => cache_rows_loop fetch rest st'

/-! Basic lemmas about the store model. -/

theorem alFind_alSet_self {α : Type} (l : List (String × α)) (k : String) (v : α) :
    alFind (alSet l k v) k = some v := by
  induction l with
  | nil => simp [alSet, alFind]
  | cons p rest ih =>
    obtain ⟨k', v'⟩ := p
    by_cases h : k' = k
    · simp [alSet, alFind, h]
    · simp [alSet, alFind, h, ih]

theorem alFind_alSet_ne {α : Type} (l : List (String × α)) (k k' : String) (v : α)
    (h : k ≠ k') : alFind (alSet l k v) k' = alFind l k' := by
  induction l with
  | nil => simp [alSet, alFind, h]
  | cons p rest ih =>
    obtain ⟨k₀, v₀⟩ := p
    by_cases h0 : k₀ = k
    · subst h0
      simp [alSet, alFind, h]
    · simp [alSet, alFind, h0, ih]

theorem alFind_filter_keys {α : Type} (l : List (String × α)) (ks : List String) (k : String) :
    alFind (l.filter (fun p => !(ks.contains p.1))) k =
      if k ∈ ks then none else alFind l k := by
  induction l with
  | nil => by_cases h : k ∈ ks <;> simp [alFind, h]
  | cons p rest ih =>
    obtain ⟨k₀, v₀⟩ := p
    by_cases h0 : k₀ ∈ ks
    · have hb : (!ks.contains (k₀, v₀).1) = false := by simp [h0]
      rw [List.filter_cons, hb]
      simp only [Bool.false_eq_true, if_false]
      by_cases hk : k₀ = k
      · subst hk
        rw [ih, if_pos h0, if_pos h0]
      · rw [ih]
        by_cases hks : k ∈ ks
        · rw [if_pos hks, if_pos hks]
        · rw [if_neg hks, if_neg hks]
          simp [alFind, hk]
    · have hb : (!ks.contains (k₀, v₀).1) = true := by simp [h0]
      rw [List.filter_cons, hb, if_pos rfl]
      by_cases hk : k₀ = k
      · subst hk
        rw [if_neg h0]
        simp [alFind]
      · simp only [alFind, hk, if_false]
        rw [ih]

theorem zsetOf_zadd_self (st : Store) (k m : String) (s : Int) :
    zsetOf (zadd st k m s) k = zinsert (zwithout (zsetOf st k) m) m s := by
  simp [zsetOf, zadd, alFind_alSet_self]

theorem zsetOf_zadd_ne (st : Store) (k k' m : String) (s : Int) (h : k ≠ k') :
    zsetOf (zadd st k m s) k' = zsetOf st k' := by
  simp [zsetOf, zadd, alFind_alSet_ne _ _ _ _ h]

theorem zsetOf_zrem_self (st : Store) (k : String) (ms : List String) :
    zsetOf (zrem st k ms) k = (zsetOf st k).filter (fun p => !(ms.contains p.1)) := by
  simp [zsetOf, zrem, alFind_alSet_self]

theorem zsetOf_zrem_ne (st : Store) (k k' : String) (ms : List String) (h : k ≠ k') :
    zsetOf (zrem st k ms) k' = zsetOf st k' := by
  simp [zsetOf, zrem, alFind_alSet_ne _ _ _ _ h]

theorem zsetOf_zremrange_self (st : Store) (k : String) (a b : Int) :
    zsetOf (zremrangebyrank st k a b) k = zremRangeList (zsetOf st k) a b := by
  simp [zsetOf, zremrangebyrank, alFind_alSet_self]

theorem zsetOf_zremrange_ne (st : Store) (k k' : String) (a b : Int) (h : k ≠ k') :
    zsetOf (zremrangebyrank st k a b) k' = zsetOf st k' := by
  simp [zsetOf, zremrangebyrank, alFind_alSet_ne _ _ _ _ h]

theorem zsetOf_del (st : Store) (ks : List String) (k : String) :
    zsetOf (del st ks) k = if k ∈ ks then [] else zsetOf st k := by
  simp only [zsetOf, del, alFind_filter_keys]
  by_cases h : k ∈ ks <;> simp [h]

theorem zsetOf_hset (st : Store) (k f v : String) (k' : String) :
    zsetOf (hset st k f v) k' = zsetOf st k' := rfl

theorem zsetOf_hdel (st : Store) (k : String) (fs : List String) (k' : String) :
    zsetOf (hdel st k fs) k' = zsetOf st k' := rfl

theorem zsetOf_sset (st : Store) (k v : String) (k' : String) :
    zsetOf (sset st k v) k' = zsetOf st k' := rfl

theorem zsetOf_setEx (st : Store) (k v : String) (ttl now : Int) (k' : String) :
    zsetOf (setEx st k v ttl now) k' = zsetOf st k' := rfl

theorem hashOf_zadd (st : Store) (k m : String) (s : Int) (k' : String) :
    hashOf (zadd st k m s) k' = hashOf st k' := rfl

theorem hashOf_zincr (st : Store) (k m : String) (d : Int) (k' : String) :
    hashOf (zincr st k m d) k' = hashOf st k' := rfl

theorem hashOf_zremrange (st : Store) (k : String) (a b : Int) (k' : String) :
    hashOf (zremrangebyrank st k a b) k' = hashOf st k' := rfl

theorem hashOf_hset_ne (st : Store) (k f v : String) (k' : String) (h : k ≠ k') :
    hashOf (hset st k f v) k' = hashOf st k' := by
  simp [hashOf, hset, alFind_alSet_ne _ _ _ _ h]

theorem hget_hset_self (st : Store) (k f v : String) :
    hget (hset st k f v) k f = some v := by
  simp [hget, hashOf, hset, alFind_alSet_self]

theorem hget_hset_ne_field (st : Store) (k f v f' : String) (h : f ≠ f') :
    hget (hset st k f v) k f' = hget st k f' := by
  simp [hget, hashOf, hset, alFind_alSet_self, alFind_alSet_ne _ _ _ _ h]

theorem zwithout_member (l : List (String × Int)) (m : String) :
    ∀ p ∈ zwithout l m, p.1 ≠ m := by
  intro p hp
  have := List.of_mem_filter hp
  simpa using this

theorem find_zinsert (l : List (String × Int)) (m : String) (s : Int)
    (h : ∀ p ∈ l, p.1 ≠ m) :
    (zinsert l m s).find? (fun p => p.1 == m) = some (m, s) := by
  induction l with
  | nil => simp [zinsert, List.find?]
  | cons p rest ih =>
    obtain ⟨m', s'⟩ := p
    by_cases hc : zBefore m s m' s' = true
    · simp [zinsert, hc, List.find?]
    · have hm' : m' ≠ m := h (m', s') (by simp)
      have hrest : ∀ p ∈ rest, p.1 ≠ m := fun q hq => h q (by simp [hq])
      simp [zinsert, hc, List.find?, hm', ih hrest]

theorem zscore_zadd_self (st : Store) (k m : String) (s : Int) :
    zscore (zadd st k m s) k m = some s := by
  rw [zscore, zsetOf_zadd_self, find_zinsert _ _ _ (zwithout_member _ _)]
  rfl

theorem zscore_zadd_ne (st : Store) (k k' m m' : String) (s : Int) (h : k ≠ k') :
    zscore (zadd st k m s) k' m' = zscore st k' m' := by
  rw [zscore, zsetOf_zadd_ne _ _ _ _ _ h, zscore]

theorem zscore_zrem_self (st : Store) (k : String) (ms : List String) (m : String)
    (hm : m ∈ ms) : zscore (zrem st k ms) k m = none := by
  rw [zscore, zsetOf_zrem_self]
  rw [Option.map_eq_none', List.find?_eq_none]
  intro p hp
  have h1 := List.of_mem_filter hp
  simp only [Bool.not_eq_true', beq_iff_eq] at h1 ⊢
  intro he
  rw [he] at h1
  simp [hm] at h1

theorem string_append_length (a b : String) : (a ++ b).length = a.length + b.length :=
  String.length_append a b

theorem viewed_key_ne_recent (t : String) : ("viewed:" ++ t) ≠ "recent:" := by
  intro h
  have h1 : ("viewed:" ++ t).data.head? = some 'v' := by
    rw [String.data_append]; rfl
  rw [h] at h1
  exact absurd h1 (by decide)

theorem viewed_key_ne_login (t : String) : ("viewed:" ++ t) ≠ "login:" := by
  intro h
  have h1 : ("viewed:" ++ t).data.head? = some 'v' := by
    rw [String.data_append]; rfl
  rw [h] at h1
  exact absurd h1 (by decide)

theorem cart_key_ne_login (t : String) : ("cart:" ++ t) ≠ "login:" := by
  intro h
  have h1 : ("cart:" ++ t).data.head? = some 'c' := by
    rw [String.data_append]; rfl
  rw [h] at h1
  exact absurd h1 (by decide)

theorem viewed_key_ne_viewed (t : String) (h : t ≠ "") : ("viewed:" ++ t) ≠ "viewed:" := by
  intro he
  have h1 := congrArg String.length he
  rw [string_append_length] at h1
  have h2 : t.length = 0 := by
    have : ("viewed:" : String).length = 7 := by decide
    omega
  apply h
  cases t with
  | mk data =>
    cases data with
    | nil => rfl
    | cons c cs => simp [String.length] at h2

theorem zscore_del (st : Store) (ks : List String) (k m : String) :
    zscore (del st ks) k m = if k ∈ ks then none else zscore st k m := by
  rw [zscore, zsetOf_del]
  by_cases h : k ∈ ks <;> simp [h, zscore]

theorem zscore_zrem_ne (st : Store) (k k' : String) (ms : List String) (m : String)
    (h : k ≠ k') : zscore (zrem st k ms) k' m = zscore st k' m := by
  rw [zscore, zsetOf_zrem_ne _ _ _ _ h, zscore]

theorem sget_del (st : Store) (ks : List String) (now : Int) (k : String) :
    sget (del st ks) now k = if k ∈ ks then none else sget st now k := by
  simp only [sget, del, alFind_filter_keys]
  by_cases h : k ∈ ks <;> simp [h]

/-! The claims. -/

/-- C1 (code bug): the refresh worker re-inserts a due schedule entry at
`now + delay` where `now` is in milliseconds (`SystemTime` `as_millis`) while
the delay is documented in seconds throughout (the spec and the repository's
own test speak of caching itemX "every 5 seconds" with delay 5).  Run at
now = 1000000 ms on a row scheduled with delay 5, the worker reschedules the
row for 1000005 — five milliseconds later — not for 1000000 + 5 * 1000, five
seconds later as the claim states. -/
theorem c1_reschedule_in_milliseconds :
    (cache_rows_step (fun r => r) (schedule_row_cache emptyStore "itemX" 5 1000000)
        1000000).toOption.map (fun st => zscore st "schedule:" "itemX") =
      some (some (1000000 + 5)) ∧
    (1000000 + 5 : Int) ≠ 1000000 + 5 * 1000 := by
  constructor
  · rfl
  · decide

/-- C2 counterexample: the token `"token"` is absent from the login hash of
the empty store, yet `check_token` returns an error (redis-rs fails to
convert the nil HGET reply into a `String`), not a non-error NotFound
result. -/
theorem c2_absent_token_error_example :
    hget emptyStore "login:" "token" = none ∧
    check_token emptyStore "token" = Except.error "response was nil" :=
  ⟨rfl, rfl⟩

/-- C2 (amended): for every token absent from the login hash, `check_token`
returns an error — the nil reply fails the typed `String` conversion and is
propagated by `?` — rather than a non-error NotFound result. -/
theorem c2_absent_token_errors (st : Store) (token : String)
    (h : hget st "login:" token = none) :
    check_token st token = Except.error "response was nil" := by
  simp [check_token, h]

theorem c2_witness :
    hget emptyStore "login:" "tok" = none ∧
    check_token emptyStore "tok" = Except.error "response was nil" :=
  ⟨rfl, c2_absent_token_errors emptyStore "tok" rfl⟩

/-- C3: `can_cache` returns false exactly when the request has no item
identifier, or the query has a parameter named underscore, or the item's
rank in the `viewed:` popularity index is missing or at least 10000; on
every other request it returns true. -/
theorem c3_can_cache_characterization (st : Store) (request : String) :
    can_cache st request = false ↔
      extract_item_id request = none ∨ is_dynamic request = true ∨
      ∃ item_id, extract_item_id request = some item_id ∧
        (zrank st "viewed:" item_id = none ∨
         ∃ r, zrank st "viewed:" item_id = some r ∧ 10000 ≤ r) := by
  cases hx : extract_item_id request with
  | none => simp [can_cache, hx]
  | some i =>
    by_cases hd : is_dynamic request
    · simp [can_cache, hx, hd]
    · cases hr : zrank st "viewed:" i with
      | none => simp [can_cache, hx, hd, hr]
      | some r =>
        have hd' : is_dynamic request = false := by simpa using hd
        have hcc : can_cache st request = true ↔ r < 10000 := by
          simp [can_cache, hx, hd', hr]
        rw [← Bool.not_eq_true, hcc, not_lt]
        constructor
        · intro hge
          exact Or.inr (Or.inr ⟨i, rfl, Or.inr ⟨r, hr, hge⟩⟩)
        · rintro (h | h | ⟨j, hj, hnone | ⟨r', hr', hge⟩⟩)
          · simp at h
          · simp [h] at hd'
          · injection hj with hij
            subst hij
            rw [hr] at hnone
            simp at hnone
          · injection hj with hij
            subst hij
            rw [hr] at hr'
            injection hr' with hrr
            subst hrr
            exact hge

/-- C7: when `can_cache` is false, `cache_request` returns exactly the
rendered content and leaves the store untouched — no cache key is created or
refreshed and no other key changes. -/
theorem c7_uncacheable_no_store_effect (st : Store) (now : Int) (request : String)
    (callback : String → String) (h : can_cache st request = false) :
    cache_request st now request callback = (callback request, st) := by
  simp [cache_request, h]

theorem c7_witness :
    can_cache emptyStore "http://test.com" = false ∧
    cache_request emptyStore 0 "http://test.com" (fun r => "content for " ++ r) =
      ("content for " ++ "http://test.com", emptyStore) :=
  ⟨by decide, c7_uncacheable_no_store_effect emptyStore 0 "http://test.com" _ (by decide)⟩

/-- C8: a due schedule entry whose recorded delay is at most 0 is removed
from the schedule index and the delay table, and its row-cache key is
deleted: afterwards none of the three exist for that row. -/
theorem c8_nonpositive_delay_uncaches (fetch : String → String) (st : Store)
    (now : Int) (row_id : String) (due delay : Int)
    (h1 : zrangeWithScores st "schedule:" 0 0 = [(row_id, due)])
    (h2 : due ≤ now)
    (h3 : zscore st "delay:" row_id = some delay)
    (h4 : delay ≤ 0) :
    ∃ st', cache_rows_step fetch st now = Except.ok st' ∧
      zscore st' "schedule:" row_id = none ∧
      zscore st' "delay:" row_id = none ∧
      sget st' now ("inv:" ++ row_id) = none := by
  refine ⟨del (zrem (zrem st "delay:" [row_id]) "schedule:" [row_id]) ["inv:" ++ row_id],
    ?_, ?_, ?_, ?_⟩
  · have hng : ¬ due > now := by omega
    simp only [cache_rows_step, h1, h3, hng, if_false, if_pos h4]
  · rw [zscore_del]
    by_cases h : "schedule:" ∈ ["inv:" ++ row_id]
    · rw [if_pos h]
    · rw [if_neg h]
      exact zscore_zrem_self _ _ _ _ (by simp)
  · rw [zscore_del]
    by_cases h : "delay:" ∈ ["inv:" ++ row_id]
    · rw [if_pos h]
    · rw [if_neg h]
      rw [zscore_zrem_ne _ _ _ _ _ (by decide)]
      exact zscore_zrem_self _ _ _ _ (by simp)
  · rw [sget_del]
    rw [if_pos (by simp)]

theorem c8_witness :
    ∃ st', cache_rows_step (fun r => r)
        ⟨[("inv:r1", ("x", none))], [], [("schedule:", [("r1", 10)]), ("delay:", [("r1", 0)])]⟩
        10 = Except.ok st' ∧
      zscore st' "schedule:" "r1" = none ∧
      zscore st' "delay:" "r1" = none ∧
      sget st' 10 ("inv:" ++ "r1") = none :=
  c8_nonpositive_delay_uncaches (fun r => r) _ 10 "r1" 10 0 (by decide) (by decide)
    (by decide) (by decide)

/-- C9: when the earliest due schedule entry names a row with no entry in the
delay table, the worker neither skips nor repairs it: the nil ZSCORE reply
fails the `isize` conversion, the iteration returns an error, and the polling
loop stops for good with that error. -/
theorem c9_missing_delay_stops_worker (fetch : String → String) (st : Store)
    (now : Int) (row_id : String) (due : Int) (rest : List Int)
    (h1 : zrangeWithScores st "schedule:" 0 0 = [(row_id, due)])
    (h2 : due ≤ now)
    (h3 : zscore st "delay:" row_id = none) :
    cache_rows_step fetch st now = Except.error "response was nil" ∧
    cache_rows_loop fetch (now :: rest) st = Except.error "response was nil" := by
  have hstep : cache_rows_step fetch st now = Except.error "response was nil" := by
    have hng : ¬ due > now := by omega
    simp only [cache_rows_step, h1, h3, hng, if_false]
  exact ⟨hstep, by rw [cache_rows_loop, hstep]⟩

theorem resolveRange_trim_none (n : Nat) (h : n < 26) : resolveRange n 0 (-26) = none := by
  simp only [resolveRange]
  rw [if_neg (by omega : ¬ (0:Int) < 0), if_pos (by omega : (-26:Int) < 0)]
  rw [if_pos (by omega : max (0:Int) 0 > -26 + (n:Int) ∨ (n:Int) ≤ max (0:Int) 0)]

theorem resolveRange_trim_some (n : Nat) (h : 26 ≤ n) :
    resolveRange n 0 (-26) = some (0, n - 26) := by
  simp only [resolveRange]
  rw [if_neg (by omega : ¬ (0:Int) < 0), if_pos (by omega : (-26:Int) < 0)]
  rw [if_neg (by omega : ¬ (max (0:Int) 0 > -26 + (n:Int) ∨ (n:Int) ≤ max (0:Int) 0))]
  simp only [Option.some.injEq, Prod.mk.injEq]
  constructor
  · omega
  · omega

/-- The history trim `ZREMRANGEBYRANK key 0 -26` keeps exactly the last 25
ranks: it removes the longest prefix leaving 25 elements, and is a no-op on
25 elements or fewer. -/
theorem zremRangeList_trim (l : List (String × Int)) :
    zremRangeList l 0 (-26) = l.drop (l.length - 25) := by
  rcases Nat.lt_or_ge l.length 26 with h | h
  · simp only [zremRangeList, resolveRange_trim_none _ h]
    have h25 : l.length - 25 = 0 := by omega
    rw [h25, List.drop_zero]
  · simp only [zremRangeList, resolveRange_trim_some _ h]
    have h25 : l.length - 26 + 1 = l.length - 25 := by omega
    rw [List.take_zero, List.nil_append, h25]

theorem zsetOf_zincr_ne (st : Store) (k k' m : String) (d : Int) (h : k ≠ k') :
    zsetOf (zincr st k m d) k' = zsetOf st k' :=
  zsetOf_zadd_ne st k k' m _ h

set_option maxRecDepth 80000

/-- C4 counterexample: with the empty session token the per-token
view-history key is the popularity index key itself, so the trim and the
popularity decrement interleave on one sorted set.  Starting from the empty
store, 27 `update_token` calls (26 distinct items at timestamps 1001..1026,
then one more item at timestamp 0, a clock reading in the past) leave that
view-history set with 26 entries: the 27th insert is trimmed away as the
lowest rank and then re-added with score -1 by the popularity decrement. -/
theorem c4_empty_token_history_overflow :
    (zsetOf
        (List.foldl (fun st p => update_token st "" "user" (some p.1) p.2) emptyStore
          [("i01", 1001), ("i02", 1002), ("i03", 1003), ("i04", 1004), ("i05", 1005),
           ("i06", 1006), ("i07", 1007), ("i08", 1008), ("i09", 1009), ("i10", 1010),
           ("i11", 1011), ("i12", 1012), ("i13", 1013), ("i14", 1014), ("i15", 1015),
           ("i16", 1016), ("i17", 1017), ("i18", 1018), ("i19", 1019), ("i20", 1020),
           ("i21", 1021), ("i22", 1022), ("i23", 1023), ("i24", 1024), ("i25", 1025),
           ("i26", 1026), ("inew", 0)])
        ("viewed:" ++ "")).length = 26 ∧
    ¬ (zsetOf
        (List.foldl (fun st p => update_token st "" "user" (some p.1) p.2) emptyStore
          [("i01", 1001), ("i02", 1002), ("i03", 1003), ("i04", 1004), ("i05", 1005),
           ("i06", 1006), ("i07", 1007), ("i08", 1008), ("i09", 1009), ("i10", 1010),
           ("i11", 1011), ("i12", 1012), ("i13", 1013), ("i14", 1014), ("i15", 1015),
           ("i16", 1016), ("i17", 1017), ("i18", 1018), ("i19", 1019), ("i20", 1020),
           ("i21", 1021), ("i22", 1022), ("i23", 1023), ("i24", 1024), ("i25", 1025),
           ("i26", 1026), ("inew", 0)])
        ("viewed:" ++ "")).length ≤ 25 := by
  constructor
  · decide
  · decide

/-- C4 (amended to non-empty session tokens, the only change the empty-token
counterexample forces): after any `update_token` call that views an item, the
token's view-history set is exactly the post-insert list with everything
before its last 25 ranks dropped — the oldest entries beyond rank 25 from the
front are trimmed — and in particular holds at most 25 entries. -/
theorem c4_history_bound (st : Store) (token user item : String) (ts : Int)
    (h : token ≠ "") :
    zsetOf (update_token st token user (some item) ts) ("viewed:" ++ token) =
      (zinsert (zwithout (zsetOf st ("viewed:" ++ token)) item) item ts).drop
        ((zinsert (zwithout (zsetOf st ("viewed:" ++ token)) item) item ts).length - 25) ∧
    (zsetOf (update_token st token user (some item) ts) ("viewed:" ++ token)).length ≤ 25 := by
  have h1 : update_token st token user (some item) ts =
      zincr (zremrangebyrank (zadd (zadd (hset st "login:" token user) "recent:" token ts)
        ("viewed:" ++ token) item ts) ("viewed:" ++ token) 0 (-26)) "viewed:" item (-1) := rfl
  have hkey : zsetOf (update_token st token user (some item) ts) ("viewed:" ++ token) =
      zremRangeList (zinsert (zwithout (zsetOf st ("viewed:" ++ token)) item) item ts)
        0 (-26) := by
    rw [h1, zsetOf_zincr_ne _ _ _ _ _ (fun he => viewed_key_ne_viewed token h he.symm)]
    rw [zsetOf_zremrange_self, zsetOf_zadd_self,
      zsetOf_zadd_ne _ _ _ _ _ (fun he => viewed_key_ne_recent token he.symm)]
    rfl
  constructor
  · rw [hkey, zremRangeList_trim]
  · rw [hkey, zremRangeList_trim, List.length_drop]
    omega

theorem c4_witness :
    zsetOf (update_token emptyStore "t" "u" (some "x") 7) ("viewed:" ++ "t") =
      (zinsert (zwithout (zsetOf emptyStore ("viewed:" ++ "t")) "x") "x" 7).drop
        ((zinsert (zwithout (zsetOf emptyStore ("viewed:" ++ "t")) "x") "x" 7).length - 25) ∧
    (zsetOf (update_token emptyStore "t" "u" (some "x") 7) ("viewed:" ++ "t")).length ≤ 25 :=
  c4_history_bound emptyStore "t" "u" "x" 7 (by decide)

theorem can_cache_setEx (st : Store) (k v : String) (ttl now : Int) (request : String) :
    can_cache (setEx st k v ttl now) request = can_cache st request := rfl

theorem sget_setEx_self (st : Store) (k v : String) (ttl now t : Int) :
    sget (setEx st k v ttl now) t k = if t < now + ttl then some v else none := by
  simp [sget, setEx, alFind_alSet_self]

/-- C6: on a cacheable request, a second `cache_request` within the 300-second
expiry returns the content resolved by the first call, whatever renderer the
second call carries — the returned value does not depend on the second
renderer at all, so it is never consulted. -/
theorem c6_cache_request_idempotent (st : Store) (request : String)
    (cb1 cb2 : String → String) (t1 t2 : Int)
    (h : can_cache st request = true) (httl : t2 < t1 + 300) :
    (cache_request (cache_request st t1 request cb1).2 t2 request cb2).1 =
      (cache_request st t1 request cb1).1 := by
  have hb1 : (!(can_cache st request)) = false := by rw [h]; rfl
  have h1 : cache_request st t1 request cb1 =
      ((sget st t1 ("cache:" ++ hash_request request)).getD (cb1 request),
        setEx st ("cache:" ++ hash_request request)
          ((sget st t1 ("cache:" ++ hash_request request)).getD (cb1 request)) 300 t1) := by
    simp only [cache_request, hb1, Bool.false_eq_true, if_false]
  rw [h1]
  have hb2 : (!(can_cache
      (setEx st ("cache:" ++ hash_request request)
        ((sget st t1 ("cache:" ++ hash_request request)).getD (cb1 request)) 300 t1)
      request)) = false := by
    rw [can_cache_setEx, h]; rfl
  simp only [cache_request, hb2, Bool.false_eq_true, if_false]
  rw [sget_setEx_self, if_pos httl]
  rfl

theorem c6_witness :
    can_cache (⟨[], [], [("viewed:", [("itemX", -1)])]⟩ : Store)
        "http://test.com/?item=itemX" = true ∧
    (0 : Int) < 0 + 300 ∧
    (cache_request
        (cache_request (⟨[], [], [("viewed:", [("itemX", -1)])]⟩ : Store) 0
          "http://test.com/?item=itemX" (fun _r => "one")).2
        0 "http://test.com/?item=itemX" (fun _r => "two")).1 =
      (cache_request (⟨[], [], [("viewed:", [("itemX", -1)])]⟩ : Store) 0
        "http://test.com/?item=itemX" (fun _r => "one")).1 :=
  ⟨by decide, by decide,
    c6_cache_request_idempotent ⟨[], [], [("viewed:", [("itemX", -1)])]⟩
      "http://test.com/?item=itemX" (fun _r => "one") (fun _r => "two") 0 0
      (by decide) (by decide)⟩

/-- C10: `update_token` with no viewed item writes only the token's login
hash entry and its recency index entry — the strings keyspace, every other
login field, every other hash key (in particular every cart key), every
view-history set and the popularity index are untouched; and when a viewed
item is given, the recency entry and the new view-history entry are written
with the same timestamp, the single clock read at the top of the call (the
trim and the popularity decrement run only afterwards). -/
theorem c10_update_token_frame (st : Store) (token user : String) (ts : Int) :
    ((update_token st token user none ts).strings = st.strings ∧
      hget (update_token st token user none ts) "login:" token = some user ∧
      zscore (update_token st token user none ts) "recent:" token = some ts ∧
      (∀ f, f ≠ token →
        hget (update_token st token user none ts) "login:" f = hget st "login:" f) ∧
      (∀ k, k ≠ "login:" →
        hashOf (update_token st token user none ts) k = hashOf st k) ∧
      (∀ t, zsetOf (update_token st token user none ts) ("viewed:" ++ t) =
        zsetOf st ("viewed:" ++ t)) ∧
      zsetOf (update_token st token user none ts) "viewed:" = zsetOf st "viewed:" ∧
      (∀ s, hashOf (update_token st token user none ts) ("cart:" ++ s) =
        hashOf st ("cart:" ++ s))) ∧
    (∀ item, update_token st token user (some item) ts =
        zincr (zremrangebyrank (update_token_writes st token user item ts)
          ("viewed:" ++ token) 0 (-26)) "viewed:" item (-1) ∧
      zscore (update_token_writes st token user item ts) "recent:" token = some ts ∧
      zscore (update_token_writes st token user item ts) ("viewed:" ++ token) item =
        some ts) := by
  refine ⟨⟨rfl, ?_, ?_, ?_, ?_, ?_, ?_, ?_⟩, ?_⟩
  · exact hget_hset_self st "login:" token user
  · exact zscore_zadd_self (hset st "login:" token user) "recent:" token ts
  · intro f hf
    exact hget_hset_ne_field st "login:" token user f (fun he => hf he.symm)
  · intro k hk
    exact hashOf_hset_ne st "login:" token user k (fun he => hk he.symm)
  · intro t
    exact zsetOf_zadd_ne (hset st "login:" token user) "recent:" ("viewed:" ++ t) token ts
      (fun he => viewed_key_ne_recent t he.symm)
  · exact zsetOf_zadd_ne (hset st "login:" token user) "recent:" "viewed:" token ts
      (by decide)
  · intro s
    exact hashOf_hset_ne st "login:" token user ("cart:" ++ s)
      (fun he => cart_key_ne_login s he.symm)
  · intro item
    refine ⟨rfl, ?_, ?_⟩
    · rw [update_token_writes,
        zscore_zadd_ne _ _ _ _ _ _ (viewed_key_ne_recent token)]
      exact zscore_zadd_self (hset st "login:" token user) "recent:" token ts
    · exact zscore_zadd_self _ ("viewed:" ++ token) item ts

theorem c10_witness :
    hget (update_token emptyStore "tok" "alice" none 5) "login:" "tok" = some "alice" ∧
    zscore (update_token emptyStore "tok" "alice" none 5) "recent:" "tok" = some 5 ∧
    hget (update_token emptyStore "tok" "alice" none 5) "login:" "other" =
      hget emptyStore "login:" "other" ∧
    hashOf (update_token emptyStore "tok" "alice" none 5) ("cart:" ++ "tok") =
      hashOf emptyStore ("cart:" ++ "tok") ∧
    zscore (update_token_writes emptyStore "tok" "alice" "itemX" 5) "recent:" "tok" =
      some 5 ∧
    zscore (update_token_writes emptyStore "tok" "alice" "itemX" 5)
      ("viewed:" ++ "tok") "itemX" = some 5 :=
  ⟨(c10_update_token_frame emptyStore "tok" "alice" 5).1.2.1,
    (c10_update_token_frame emptyStore "tok" "alice" 5).1.2.2.1,
    (c10_update_token_frame emptyStore "tok" "alice" 5).1.2.2.2.1 "other" (by decide),
    (c10_update_token_frame emptyStore "tok" "alice" 5).1.2.2.2.2.2.2.2 "tok",
    ((c10_update_token_frame emptyStore "tok" "alice" 5).2 "itemX").2.1,
    ((c10_update_token_frame emptyStore "tok" "alice" 5).2 "itemX").2.2⟩

theorem zslice_front (l : List (String × Int)) (e : Int) (h1 : 1 ≤ e)
    (h2 : e ≤ (l.length : Int)) : zslice l 0 (e - 1) = l.take e.toNat := by
  have hr : resolveRange l.length 0 (e - 1) = some (0, (e - 1).toNat) := by
    simp only [resolveRange]
    rw [if_neg (by omega : ¬ (0:Int) < 0), if_neg (by omega : ¬ (e - 1 : Int) < 0)]
    rw [if_neg
      (by omega : ¬ (max (0:Int) 0 > e - 1 ∨ (l.length : Int) ≤ max (0:Int) 0))]
    simp only [Option.some.injEq, Prod.mk.injEq]
    constructor
    · omega
    · omega
  simp only [zslice, hr, List.drop_zero]
  congr 1
  omega

/-- Both reapers select the same batch: the lowest `min(size - limit, 100)`
recency ranks, read front-first from the `recent:` index. -/
theorem sessionBatch_eq (st : Store) (limit : Int) (h0 : 0 ≤ limit)
    (h : limit < (zcard st "recent:" : Int)) :
    sessionBatch st limit =
      ((zsetOf st "recent:").take
        (min ((zcard st "recent:" : Int) - limit) 100).toNat).map (fun p => p.1) := by
  have hcard : (zcard st "recent:" : Int) = ((zsetOf st "recent:").length : Int) := rfl
  have he1 : 1 ≤ min ((zcard st "recent:" : Int) - limit) 100 := by omega
  have he2 : min ((zcard st "recent:" : Int) - limit) 100 ≤
      ((zsetOf st "recent:").length : Int) := by omega
  simp only [sessionBatch, zrange]
  rw [zslice_front _ _ he1 he2]

theorem sessionBatch_length (st : Store) (limit : Int) (h0 : 0 ≤ limit)
    (h : limit < (zcard st "recent:" : Int)) :
    (sessionBatch st limit).length =
      (min ((zcard st "recent:" : Int) - limit) 100).toNat := by
  have hcard : (zcard st "recent:" : Int) = ((zsetOf st "recent:").length : Int) := rfl
  rw [sessionBatch_eq st limit h0 h, List.length_map, List.length_take]
  omega

theorem sessionBatch_head_mem (st : Store) (limit : Int) (h0 : 0 ≤ limit)
    (h : limit < (zcard st "recent:" : Int)) :
    ∀ p, (zsetOf st "recent:").head? = some p → p.1 ∈ sessionBatch st limit := by
  intro p hp
  rw [sessionBatch_eq st limit h0 h]
  cases hl : zsetOf st "recent:" with
  | nil =>
    rw [hl] at hp
    simp at hp
  | cons q rest =>
    rw [hl] at hp
    simp only [List.head?] at hp
    injection hp with hq
    subst hq
    have hk : 1 ≤ (min ((zcard st "recent:" : Int) - limit) 100).toNat := by omega
    obtain ⟨m, hm⟩ := Nat.exists_eq_add_of_le hk
    rw [hm, Nat.add_comm 1 m, List.take_succ_cons]
    exact List.mem_map_of_mem _ (List.mem_cons_self _ _)

/-- One eviction pass strictly shrinks the recency index when its head token
is in the eviction batch. -/
theorem evict_zcard_lt (st : Store) (ks tokens : List String)
    (hn : 0 < zcard st "recent:")
    (hhead : ∀ p, (zsetOf st "recent:").head? = some p → p.1 ∈ tokens) :
    zcard (zrem (hdel (del st ks) "login:" tokens) "recent:" tokens) "recent:" <
      zcard st "recent:" := by
  have hz : zsetOf (zrem (hdel (del st ks) "login:" tokens) "recent:" tokens) "recent:" =
      (zsetOf (del st ks) "recent:").filter (fun p => !(tokens.contains p.1)) := by
    rw [zsetOf_zrem_self]
    rfl
  rw [zcard, hz, zsetOf_del]
  by_cases hmem : "recent:" ∈ ks
  · rw [if_pos hmem]
    simpa using hn
  · rw [if_neg hmem]
    cases hl : zsetOf st "recent:" with
    | nil =>
      rw [zcard, hl] at hn
      simp at hn
    | cons q rest =>
      have hq : q.1 ∈ tokens := hhead q (by rw [hl]; rfl)
      have hqb : (!(tokens.contains q.1)) = false := by simp [hq]
      rw [List.filter_cons, hqb]
      simp only [Bool.false_eq_true, if_false]
      rw [show zcard st "recent:" = (q :: rest).length from by rw [zcard, hl]]
      calc (rest.filter (fun p => !(tokens.contains p.1))).length
          ≤ rest.length := List.length_filter_le _ _
        _ < (q :: rest).length := by simp

theorem clean_sessions_iter_reaches (limit : Int) (h0 : 0 ≤ limit) :
    ∀ N st, zcard st "recent:" ≤ N →
      ∃ n, (zcard (clean_sessions_iter limit n st) "recent:" : Int) ≤ limit := by
  intro N
  induction N with
  | zero =>
    intro st hst
    refine ⟨0, ?_⟩
    simp only [clean_sessions_iter]
    omega
  | succ N ih =>
    intro st hst
    by_cases hle : (zcard st "recent:" : Int) ≤ limit
    · exact ⟨0, hle⟩
    · have hlt : zcard (clean_sessions_step st limit) "recent:" < zcard st "recent:" := by
        simp only [clean_sessions_step]
        rw [if_neg hle]
        exact evict_zcard_lt st _ _ (by omega)
          (sessionBatch_head_mem st limit h0 (by omega))
      obtain ⟨n, hn⟩ := ih (clean_sessions_step st limit) (by omega)
      exact ⟨n + 1, hn⟩

theorem clean_full_sessions_iter_reaches (limit : Int) (h0 : 0 ≤ limit) :
    ∀ N st, zcard st "recent:" ≤ N →
      ∃ n, (zcard (clean_full_sessions_iter limit n st) "recent:" : Int) ≤ limit := by
  intro N
  induction N with
  | zero =>
    intro st hst
    refine ⟨0, ?_⟩
    simp only [clean_full_sessions_iter]
    omega
  | succ N ih =>
    intro st hst
    by_cases hle : (zcard st "recent:" : Int) ≤ limit
    · exact ⟨0, hle⟩
    · have hlt : zcard (clean_full_sessions_step st limit) "recent:" < zcard st "recent:" := by
        simp only [clean_full_sessions_step]
        rw [if_neg hle]
        exact evict_zcard_lt st _ _ (by omega)
          (sessionBatch_head_mem st limit h0 (by omega))
      obtain ⟨n, hn⟩ := ih (clean_full_sessions_step st limit) (by omega)
      exact ⟨n + 1, hn⟩

/-- C5 counterexample: with a negative limit the formula overshoots the
registry.  A registry holding one token and limit -100 is over limit, and
`min(size - limit, 100) = 100`, yet the batch read from the store holds just
the 1 existing token, not exactly `min(size - limit, 100)` of them. -/
theorem c5_negative_limit_batch :
    (-100 : Int) < (zcard (⟨[], [], [("recent:", [("t1", 0)])]⟩ : Store) "recent:" : Int) ∧
    min ((zcard (⟨[], [], [("recent:", [("t1", 0)])]⟩ : Store) "recent:" : Int) - (-100))
      100 = 100 ∧
    (sessionBatch (⟨[], [], [("recent:", [("t1", 0)])]⟩ : Store) (-100)).length = 1 ∧
    (1 : Nat) ≠ 100 := by
  refine ⟨by decide, by decide, ?_, by decide⟩
  rfl

/-- C5 (amended to non-negative limits, the only change the negative-limit
counterexample forces): whenever the registry size exceeds the limit, both
reapers select exactly `min(size - limit, 100)` tokens — never more than
100 — and those are the lowest recency ranks (the least-recently-seen
tokens, read from the front of the `recent:` index); and for either reaper,
repeated iterations reach a registry size of at most the limit. -/
theorem c5_bounded_eviction (st : Store) (limit : Int) (h0 : 0 ≤ limit) :
    (limit < (zcard st "recent:" : Int) →
      sessionBatch st limit =
        ((zsetOf st "recent:").take
          (min ((zcard st "recent:" : Int) - limit) 100).toNat).map (fun p => p.1) ∧
      (sessionBatch st limit).length =
        (min ((zcard st "recent:" : Int) - limit) 100).toNat ∧
      (sessionBatch st limit).length ≤ 100) ∧
    (∃ n, (zcard (clean_sessions_iter limit n st) "recent:" : Int) ≤ limit) ∧
    (∃ n, (zcard (clean_full_sessions_iter limit n st) "recent:" : Int) ≤ limit) := by
  refine ⟨?_,
    clean_sessions_iter_reaches limit h0 (zcard st "recent:") st (le_refl _),
    clean_full_sessions_iter_reaches limit h0 (zcard st "recent:") st (le_refl _)⟩
  intro h
  refine ⟨sessionBatch_eq st limit h0 h, sessionBatch_length st limit h0 h, ?_⟩
  rw [sessionBatch_length st limit h0 h]
  omega

theorem c5_witness :
    ((0 : Int) < (zcard (⟨[], [], [("recent:", [("t1", 0)])]⟩ : Store) "recent:" : Int) →
      sessionBatch (⟨[], [], [("recent:", [("t1", 0)])]⟩ : Store) 0 =
        ((zsetOf (⟨[], [], [("recent:", [("t1", 0)])]⟩ : Store) "recent:").take
          (min ((zcard (⟨[], [], [("recent:", [("t1", 0)])]⟩ : Store) "recent:" : Int) - 0)
            100).toNat).map (fun p => p.1) ∧
      (sessionBatch (⟨[], [], [("recent:", [("t1", 0)])]⟩ : Store) 0).length =
        (min ((zcard (⟨[], [], [("recent:", [("t1", 0)])]⟩ : Store) "recent:" : Int) - 0)
          100).toNat ∧
      (sessionBatch (⟨[], [], [("recent:", [("t1", 0)])]⟩ : Store) 0).length ≤ 100) ∧
    (∃ n, (zcard (clean_sessions_iter 0 n (⟨[], [], [("recent:", [("t1", 0)])]⟩ : Store))
      "recent:" : Int) ≤ 0) ∧
    (∃ n, (zcard (clean_full_sessions_iter 0 n
      (⟨[], [], [("recent:", [("t1", 0)])]⟩ : Store)) "recent:" : Int) ≤ 0) :=
  c5_bounded_eviction ⟨[], [], [("recent:", [("t1", 0)])]⟩ 0 (by decide)

theorem c9_witness :
    cache_rows_step (fun r => r) ⟨[], [], [("schedule:", [("r1", 10)])]⟩ 10 =
      Except.error "response was nil" ∧
    cache_rows_loop (fun r => r) (10 :: [11, 12]) ⟨[], [], [("schedule:", [("r1", 10)])]⟩ =
      Except.error "response was nil" :=
  c9_missing_delay_stops_worker (fun r => r) _ 10 "r1" 10 [11, 12] (by decide) (by decide)
    (by decide)

end Ch02
